import Mathlib

/-!
Verification of the PIN-based rendezvous and P2P session layer of the PruKt
repository.

The server-side rendezvous store is embedded from the `p2pWss` WebSocket
handler in `src/server/routes.ts` (lines 302-393); the standalone
`P2P_ONLY` server in `src/unnamed/part_000` (lines 43-122) contains the
same handler verbatim, so one embedding covers both.  JS `Map`s become
functions into `Option`, JS `Set`s become duplicate-free lists in insertion
order, and each incoming socket message becomes one step of a transition
function returning the new store state together with the list of
(recipient, message) pairs passed to `sendJson`.
-/

namespace PruKt

/-- The characters removed by JavaScript `String.prototype.trim`:
ECMAScript WhiteSpace (TAB, VT, FF, SP, NBSP, ZWNBSP and the Unicode
Space_Separator code points U+1680, U+2000-U+200A, U+202F, U+205F, U+3000)
and LineTerminator (LF, CR, LS, PS), by code point. -/
def isJsWhitespace (c : Char) : Bool :=
  c.toNat = 32 || c.toNat = 9 || c.toNat = 10 || c.toNat = 13 ||
  c.toNat = 11 || c.toNat = 12 || c.toNat = 0xa0 ||
  c.toNat = 0x1680 || (0x2000 ≤ c.toNat && c.toNat ≤ 0x200a) ||
  c.toNat = 0x202f || c.toNat = 0x205f || c.toNat = 0x3000 ||
  c.toNat = 0x2028 || c.toNat = 0x2029 || c.toNat = 0xfeff

/-- Embedding of `String(msg.pin || "").trim()` applied to a string pin. -/
def jsTrim (s : String) : String :=
  String.mk (((s.data.dropWhile isJsWhitespace).reverse.dropWhile isJsWhitespace).reverse)

/-- The regex class `\d`: an ASCII decimal digit, code points 48 to 57. -/
def isDigitChar (c : Char) : Bool :=
  48 ≤ c.toNat && c.toNat ≤ 57

/-- Embedding of the test `/^\d{6}$/.test(pin)`: exactly six characters,
each an ASCII decimal digit. -/
def sixDigits (s : String) : Bool :=
  s.data.length = 6 && s.data.all isDigitChar

/-- Outbound server-to-client messages produced by `sendJson` in the
`p2pWss` handler. -/
inductive OutMsg where
  | error (message : String)
  | roomFull (pin : String)
  | joined (pin : String) (occupants : Nat)
  | peerJoined
  | ready
  | peerLeft
  | signal (data : String)
deriving DecidableEq, Repr

/-- Inbound client-to-server messages handled by the `p2pWss` handler.
The `signal` payload is opaque to the server; it is modelled as a string. -/
inductive InMsg where
  | join (pin : String)
  | signal (data : String)
  | leave
deriving DecidableEq, Repr

/-- One event observed by the server: a parsed message from a connection,
or the closing of a connection.  Connections are identified by naturals. -/
inductive CEvent where
  | msg (c : Nat) (m : InMsg)
  | close (c : Nat)
deriving DecidableEq, Repr

/-- The rendezvous store's state: the `pinRooms` map (PIN to member set,
members kept as a duplicate-free list in insertion order) and the
`socketToPin` map. -/
structure SrvState where
  pinRooms : String → Option (List Nat)
  socketToPin : Nat → Option String

/-- The empty store, as created at server startup. -/
def initState : SrvState :=
  { pinRooms := fun _ => none, socketToPin := fun _ => none }

/-- Point update of the `pinRooms` map (`pinRooms.set` / `pinRooms.delete`). -/
def updRoom (f : String → Option (List Nat)) (p : String) (v : Option (List Nat)) :
    String → Option (List Nat) :=
  fun q => if q = p then v else f q

/-- Point update of the `socketToPin` map. -/
def updPin (f : Nat → Option String) (c : Nat) (v : Option String) :
    Nat → Option String :=
  fun d => if d = c then v else f d

/-- JS `Set.add`: append the element unless it is already present. -/
def addMem (r : List Nat) (c : Nat) : List Nat :=
  if c ∈ r then r else r ++ [c]

/-- Embedding of the `join` branch of the `p2pWss` message handler
(`routes.ts` lines 323-352). -/
def joinStep (s : SrvState) (c : Nat) (pinRaw : String) : SrvState × List (Nat × OutMsg) :=
  let pin := jsTrim pinRaw
  if sixDigits pin = true then
    let room := (s.pinRooms pin).getD []
    if 2 ≤ room.length then
      (s, [(c, OutMsg.roomFull pin)])
    else
      let room2 := addMem room c
      (⟨updRoom s.pinRooms pin (some room2), updPin s.socketToPin c (some pin)⟩,
        (c, OutMsg.joined pin room2.length) ::
          ((room2.filter fun x => x ≠ c).map fun x => (x, OutMsg.peerJoined)) ++
          (if room2.length = 2 then room2.map fun x => (x, OutMsg.ready) else []))
  else
    (s, [(c, OutMsg.error "PIN must be 6 digits")])

/-- Embedding of the `signal` branch of the `p2pWss` message handler
(`routes.ts` lines 353-362). -/
def signalStep (s : SrvState) (c : Nat) (d : String) : SrvState × List (Nat × OutMsg) :=
  match s.socketToPin c with
  | none => (s, [])
  | some pin =>
    match s.pinRooms pin with
    | none => (s, [])
    | some room => (s, (room.filter fun x => x ≠ c).map fun x => (x, OutMsg.signal d))

/-- Embedding of the `leave` branch and of the `close` handler, which share
the same body (`routes.ts` lines 363-376 and 379-392). -/
def removeConn (s : SrvState) (c : Nat) : SrvState × List (Nat × OutMsg) :=
  match s.socketToPin c with
  | none => (s, [])
  | some pin =>
    match s.pinRooms pin with
    | none => (s, [])
    | some room =>
      let room2 := room.filter fun x => x ≠ c
      (⟨updRoom s.pinRooms pin (if room2.length = 0 then none else some room2),
          updPin s.socketToPin c none⟩,
        room2.map fun x => (x, OutMsg.peerLeft))

/-- One step of the rendezvous store: dispatch on the event exactly as the
`p2pWss` handler dispatches on `msg.type` and on socket closure. -/
def step (s : SrvState) (e : CEvent) : SrvState × List (Nat × OutMsg) :=
  match e with
  | CEvent.msg c (InMsg.join pin) => joinStep s c pin
  | CEvent.msg c (InMsg.signal d) => signalStep s c d
  | CEvent.msg c InMsg.leave => removeConn s c
  | CEvent.close c => removeConn s c

/-- The store state reached from a given state by a list of events. -/
def runFrom (s : SrvState) (es : List CEvent) : SrvState :=
  es.foldl (fun t e => (step t e).1) s

/-- The store state reached from the initial (empty) store. -/
def runEvents (es : List CEvent) : SrvState :=
  runFrom initState es

/-- The store invariant: every room has at most two members, the member
list is duplicate-free, every room key is a validated six-digit PIN, and
every connection's `socketToPin` assignment points to a room that contains
the connection. -/
def Inv (s : SrvState) : Prop :=
  (∀ p r, s.pinRooms p = some r → r.length ≤ 2 ∧ r.Nodup ∧ sixDigits p = true) ∧
  (∀ c p, s.socketToPin c = some p → ∃ r, s.pinRooms p = some r ∧ c ∈ r)

theorem updRoom_same (f : String → Option (List Nat)) (p : String) (v : Option (List Nat)) :
    updRoom f p v p = v := by
  simp [updRoom]

theorem updRoom_other (f : String → Option (List Nat)) {p q : String}
    (v : Option (List Nat)) (h : q ≠ p) : updRoom f p v q = f q := by
  simp [updRoom, h]

theorem updPin_same (f : Nat → Option String) (c : Nat) (v : Option String) :
    updPin f c v c = v := by
  simp [updPin]

theorem updPin_other (f : Nat → Option String) {c d : Nat}
    (v : Option String) (h : d ≠ c) : updPin f c v d = f d := by
  simp [updPin, h]

theorem addMem_length (r : List Nat) (c : Nat) : (addMem r c).length ≤ r.length + 1 := by
  by_cases hc : c ∈ r <;> simp [addMem, hc]

theorem addMem_nodup {r : List Nat} (c : Nat) (h : r.Nodup) : (addMem r c).Nodup := by
  by_cases hc : c ∈ r
  · simpa [addMem, hc] using h
  · simp [addMem, hc, List.nodup_append, h]

theorem mem_addMem_self (r : List Nat) (c : Nat) : c ∈ addMem r c := by
  by_cases hc : c ∈ r <;> simp [addMem, hc]

theorem mem_addMem_of_mem {r : List Nat} {x : Nat} (c : Nat) (h : x ∈ r) :
    x ∈ addMem r c := by
  by_cases hc : c ∈ r <;> simp [addMem, hc, h]

/-- A six-digit PIN contains no whitespace, so JS `trim` leaves it alone. -/
theorem jsTrim_of_sixDigits {p : String} (h : sixDigits p = true) : jsTrim p = p := by
  have hall : ∀ c ∈ p.data, isDigitChar c = true := by
    unfold sixDigits at h
    simp only [Bool.and_eq_true, List.all_eq_true] at h
    exact h.2
  have hnw : ∀ c ∈ p.data, isJsWhitespace c = false := by
    intro c hc
    have hd := hall c hc
    simp only [isDigitChar, Bool.and_eq_true, decide_eq_true_eq] at hd
    simp only [isJsWhitespace, Bool.or_eq_false_iff, Bool.and_eq_false_iff,
      decide_eq_false_iff_not]
    omega
  have hdw : ∀ (l : List Char), (∀ c ∈ l, isJsWhitespace c = false) →
      l.dropWhile isJsWhitespace = l := by
    intro l hl
    cases l with
    | nil => rfl
    | cons a t =>
      rw [List.dropWhile_cons_of_neg]
      simp [hl a (List.mem_cons_self a t)]
  show String.mk _ = p
  rw [hdw p.data hnw]
  rw [hdw p.data.reverse (fun c hc => hnw c (List.mem_reverse.mp hc))]
  cases p
  simp

theorem inv_initState : Inv initState := by
  constructor
  · intro p r h
    simp [initState] at h
  · intro c p h
    simp [initState] at h

theorem inv_joinStep {s : SrvState} (h : Inv s) (c : Nat) (pinRaw : String) :
    Inv (joinStep s c pinRaw).1 := by
  unfold joinStep
  by_cases hv : sixDigits (jsTrim pinRaw) = true
  case neg => simpa [hv] using h
  simp only [hv, if_true]
  by_cases hfull : 2 ≤ ((s.pinRooms (jsTrim pinRaw)).getD []).length
  case pos => simpa [hfull] using h
  simp only [hfull, if_false]
  constructor
  · intro p r hpr
    dsimp only at hpr
    by_cases hp : p = jsTrim pinRaw
    · subst hp
      rw [updRoom_same] at hpr
      obtain rfl : addMem ((s.pinRooms (jsTrim pinRaw)).getD []) c = r :=
        Option.some.inj hpr
      refine ⟨?_, ?_, hv⟩
      · have hlen : ((s.pinRooms (jsTrim pinRaw)).getD []).length ≤ 1 := by omega
        have := addMem_length ((s.pinRooms (jsTrim pinRaw)).getD []) c
        omega
      · apply addMem_nodup
        rcases hrm : s.pinRooms (jsTrim pinRaw) with _ | r0
        · simp
        · simpa using (h.1 (jsTrim pinRaw) r0 hrm).2.1
    · rw [updRoom_other _ _ hp] at hpr
      exact h.1 p r hpr
  · intro d q hdq
    dsimp only at hdq
    by_cases hd : d = c
    · subst hd
      rw [updPin_same] at hdq
      obtain rfl : jsTrim pinRaw = q := Option.some.inj hdq
      exact ⟨addMem ((s.pinRooms (jsTrim pinRaw)).getD []) d,
        by dsimp only; rw [updRoom_same], mem_addMem_self _ _⟩
    · rw [updPin_other _ _ hd] at hdq
      obtain ⟨r, hr, hmem⟩ := h.2 d q hdq
      by_cases hq : q = jsTrim pinRaw
      · subst hq
        refine ⟨addMem ((s.pinRooms (jsTrim pinRaw)).getD []) c,
          by dsimp only; rw [updRoom_same], ?_⟩
        exact mem_addMem_of_mem c (by simp [hr, hmem])
      · exact ⟨r, by dsimp only; rw [updRoom_other _ _ hq]; exact hr, hmem⟩

theorem signalStep_fst (s : SrvState) (c : Nat) (d : String) :
    (signalStep s c d).1 = s := by
  rcases hstp : s.socketToPin c with _ | pin
  · simp [signalStep, hstp]
  · rcases hrm : s.pinRooms pin with _ | room <;> simp [signalStep, hstp, hrm]

theorem inv_removeConn {s : SrvState} (h : Inv s) (c : Nat) :
    Inv (removeConn s c).1 := by
  rcases hstp : s.socketToPin c with _ | pin
  · unfold removeConn
    simp only [hstp]
    exact h
  rcases hrm : s.pinRooms pin with _ | room
  · unfold removeConn
    simp only [hstp, hrm]
    exact h
  unfold removeConn
  simp only [hstp, hrm]
  constructor
  · intro p r hpr
    dsimp only at hpr
    by_cases hp : p = pin
    · subst hp
      rw [updRoom_same] at hpr
      by_cases hz : (room.filter fun x => x ≠ c).length = 0
      · rw [if_pos hz] at hpr
        exact absurd hpr (by simp)
      · rw [if_neg hz] at hpr
        obtain rfl : room.filter (fun x => x ≠ c) = r := Option.some.inj hpr
        obtain ⟨hlen, hnd, hsd⟩ := h.1 p room hrm
        exact ⟨le_trans (List.length_filter_le _ _) hlen, hnd.filter _, hsd⟩
    · rw [updRoom_other _ _ hp] at hpr
      exact h.1 p r hpr
  · intro d q hdq
    dsimp only at hdq
    by_cases hd : d = c
    · subst hd
      rw [updPin_same] at hdq
      exact absurd hdq (by simp)
    · rw [updPin_other _ _ hd] at hdq
      obtain ⟨r, hr, hmem⟩ := h.2 d q hdq
      by_cases hq : q = pin
      · subst hq
        rw [hrm] at hr
        obtain rfl : room = r := Option.some.inj hr
        have hmem2 : d ∈ room.filter fun x => x ≠ c := by
          simp only [List.mem_filter, decide_eq_true_eq]
          exact ⟨hmem, hd⟩
        have hz : ¬ (room.filter fun x => x ≠ c).length = 0 := by
          intro hzz
          rw [List.length_eq_zero] at hzz
          rw [hzz] at hmem2
          exact absurd hmem2 (by simp)
        refine ⟨room.filter fun x => x ≠ c, ?_, hmem2⟩
        dsimp only
        rw [updRoom_same, if_neg hz]
      · exact ⟨r, by dsimp only; rw [updRoom_other _ _ hq]; exact hr, hmem⟩

theorem inv_step {s : SrvState} (h : Inv s) (e : CEvent) : Inv (step s e).1 := by
  cases e with
  | msg c m =>
    cases m with
    | join pin => exact inv_joinStep h c pin
    | signal d => rw [step, signalStep_fst]; exact h
    | leave => exact inv_removeConn h c
  | close c => exact inv_removeConn h c

theorem inv_runFrom {s : SrvState} (h : Inv s) (es : List CEvent) :
    Inv (runFrom s es) := by
  induction es generalizing s with
  | nil => exact h
  | cons e t ih => exact ih (inv_step h e)

/-- Every state reached from the empty store satisfies the invariant. -/
theorem inv_runEvents (es : List CEvent) : Inv (runEvents es) :=
  inv_runFrom inv_initState es

/-- A `join` for a six-digit PIN whose room is absent creates the room with
the joiner as sole member and replies `joined` with occupant count 1. -/
theorem joinStep_fresh (s : SrvState) (c : Nat) (p : String)
    (hp : sixDigits p = true) (h0 : s.pinRooms p = none) :
    joinStep s c p =
      (⟨updRoom s.pinRooms p (some [c]), updPin s.socketToPin c (some p)⟩,
        [(c, OutMsg.joined p 1)]) := by
  unfold joinStep
  rw [jsTrim_of_sixDigits hp]
  simp [hp, h0, addMem]

/-- Removing the sole member of a room deletes the room's entry. -/
theorem removeConn_sole (s : SrvState) (c : Nat) (p : String)
    (hstp : s.socketToPin c = some p) (hrm : s.pinRooms p = some [c]) :
    removeConn s c =
      (⟨updRoom s.pinRooms p none, updPin s.socketToPin c none⟩, []) := by
  unfold removeConn
  simp [hstp, hrm]

/-- Claim C1: in every reachable rendezvous-store state each room holds at
most 2 members, and a `join` addressed to a room that already has 2 members
sends `roomFull` to the joiner and leaves the whole store state (membership
and room assignments) unchanged. -/
theorem c1_room_capacity :
    (∀ es p r, (runEvents es).pinRooms p = some r → r.length ≤ 2) ∧
    (∀ es c p r, (runEvents es).pinRooms p = some r → 2 ≤ r.length →
      step (runEvents es) (CEvent.msg c (InMsg.join p)) =
        (runEvents es, [(c, OutMsg.roomFull p)])) := by
  constructor
  · intro es p r hpr
    exact ((inv_runEvents es).1 p r hpr).1
  · intro es c p r hpr hlen
    have hsd : sixDigits p = true := ((inv_runEvents es).1 p r hpr).2.2
    show joinStep (runEvents es) c p = _
    unfold joinStep
    rw [jsTrim_of_sixDigits hsd]
    simp [hsd, hpr, hlen]

/-- Witness for C1 at a concrete trace: two sockets fill room `123456`,
and a third join receives `roomFull` with the store unchanged. -/
theorem c1_room_capacity_witness :
    (runEvents [CEvent.msg 0 (InMsg.join "123456"),
        CEvent.msg 1 (InMsg.join "123456")]).pinRooms "123456" = some [0, 1] ∧
    step (runEvents [CEvent.msg 0 (InMsg.join "123456"),
        CEvent.msg 1 (InMsg.join "123456")]) (CEvent.msg 2 (InMsg.join "123456")) =
      (runEvents [CEvent.msg 0 (InMsg.join "123456"),
        CEvent.msg 1 (InMsg.join "123456")], [(2, OutMsg.roomFull "123456")]) :=
  ⟨by decide,
    c1_room_capacity.2 [CEvent.msg 0 (InMsg.join "123456"),
      CEvent.msg 1 (InMsg.join "123456")] 2 "123456" [0, 1] (by decide) (by decide)⟩

/-- Counterexample to claim C5 as stated: after socket 0 joins `111111` and
then joins `222222`, it is simultaneously a member of both rooms' member
sets — the second join does not remove it from its previous room. -/
theorem c5_two_rooms_counterexample :
    0 ∈ ((runEvents [CEvent.msg 0 (InMsg.join "111111"),
        CEvent.msg 0 (InMsg.join "222222")]).pinRooms "111111").getD [] ∧
    0 ∈ ((runEvents [CEvent.msg 0 (InMsg.join "111111"),
        CEvent.msg 0 (InMsg.join "222222")]).pinRooms "222222").getD [] ∧
    ("111111" : String) ≠ "222222" :=
  ⟨by decide, by decide, by decide⟩

/-- Claim C5 (amended): in every reachable state each connection has at most
one current room assignment (`socketToPin` is a map), and that assignment
always points to a room whose member set contains the connection; stale
membership in a previously joined room's member set can however persist
after a second join. -/
theorem c5_single_assignment (es : List CEvent) (c : Nat) (p : String)
    (h : (runEvents es).socketToPin c = some p) :
    ∃ r, (runEvents es).pinRooms p = some r ∧ c ∈ r :=
  (inv_runEvents es).2 c p h

/-- Witness for the amended C5 at a concrete trace. -/
theorem c5_single_assignment_witness :
    ∃ r, (runEvents [CEvent.msg 0 (InMsg.join "123456")]).pinRooms "123456" =
      some r ∧ 0 ∈ r :=
  c5_single_assignment [CEvent.msg 0 (InMsg.join "123456")] 0 "123456" (by decide)

/-- Counterexample to claim C7 as stated: the join pin `" 123456"` is not
exactly six decimal digits, yet the server trims it first and admits the
connection to room `123456` with a `joined` reply instead of an error. -/
theorem c7_trim_counterexample :
    sixDigits " 123456" = false ∧
    (step initState (CEvent.msg 0 (InMsg.join " 123456"))).2 =
      [(0, OutMsg.joined "123456" 1)] ∧
    (step initState (CEvent.msg 0 (InMsg.join " 123456"))).1.pinRooms "123456" =
      some [0] ∧
    (step initState (CEvent.msg 0 (InMsg.join " 123456"))).1.socketToPin 0 =
      some "123456" :=
  ⟨by decide, by decide, by decide, by decide⟩

/-- Claim C7 (amended): a join whose pin, after JS string trimming, is not
exactly six decimal digits is rejected with an `error` message and no state
change; when the trimmed pin is six digits, the join admits the connection
if the room has fewer than 2 members and replies `roomFull` without state
change if it is full. -/
theorem c7_pin_validation (s : SrvState) (c : Nat) (pinRaw : String) :
    (sixDigits (jsTrim pinRaw) = false →
      step s (CEvent.msg c (InMsg.join pinRaw)) =
        (s, [(c, OutMsg.error "PIN must be 6 digits")])) ∧
    (sixDigits (jsTrim pinRaw) = true →
      (((s.pinRooms (jsTrim pinRaw)).getD []).length < 2 →
        c ∈ (((step s (CEvent.msg c (InMsg.join pinRaw))).1.pinRooms
          (jsTrim pinRaw)).getD [])) ∧
      (2 ≤ ((s.pinRooms (jsTrim pinRaw)).getD []).length →
        step s (CEvent.msg c (InMsg.join pinRaw)) =
          (s, [(c, OutMsg.roomFull (jsTrim pinRaw))]))) := by
  constructor
  · intro hv
    show joinStep s c pinRaw = _
    unfold joinStep
    simp [hv]
  · intro hv
    constructor
    · intro hlt
      show c ∈ (((joinStep s c pinRaw).1.pinRooms (jsTrim pinRaw)).getD [])
      unfold joinStep
      have hnotfull : ¬ 2 ≤ ((s.pinRooms (jsTrim pinRaw)).getD []).length := by
        omega
      simp only [hv, if_true, hnotfull, if_false]
      rw [updRoom_same]
      simpa using mem_addMem_self _ c
    · intro hfull
      show joinStep s c pinRaw = _
      unfold joinStep
      simp [hv, hfull]

/-- Witness for the amended C7: a malformed pin is rejected, and a valid pin
on an empty store is admitted. -/
theorem c7_pin_validation_witness :
    step initState (CEvent.msg 0 (InMsg.join "12ab56")) =
      (initState, [(0, OutMsg.error "PIN must be 6 digits")]) ∧
    0 ∈ (((step initState (CEvent.msg 0 (InMsg.join "999999"))).1.pinRooms
      (jsTrim "999999")).getD []) :=
  ⟨(c7_pin_validation initState 0 "12ab56").1 (by decide),
    ((c7_pin_validation initState 0 "999999").2 (by decide)).1 (by decide)⟩

/-- Claim C8: a `signal` relay never changes the store state; if the sender
has no room assignment it is a silent no-op, and otherwise the opaque
payload is delivered, unmodified, to exactly the members of the sender's
room other than the sender and never back to the sender. -/
theorem c8_relay (es : List CEvent) (c : Nat) (d : String) :
    (step (runEvents es) (CEvent.msg c (InMsg.signal d))).1 = runEvents es ∧
    ((runEvents es).socketToPin c = none →
      (step (runEvents es) (CEvent.msg c (InMsg.signal d))).2 = []) ∧
    (∀ p, (runEvents es).socketToPin c = some p →
      ∃ r, (runEvents es).pinRooms p = some r ∧
        (step (runEvents es) (CEvent.msg c (InMsg.signal d))).2 =
          (r.filter fun x => x ≠ c).map (fun x => (x, OutMsg.signal d)) ∧
        (∀ x ∈ r, x ≠ c →
          (x, OutMsg.signal d) ∈
            (step (runEvents es) (CEvent.msg c (InMsg.signal d))).2) ∧
        (∀ y m, (y, m) ∈ (step (runEvents es) (CEvent.msg c (InMsg.signal d))).2 →
          y ≠ c ∧ m = OutMsg.signal d)) := by
  refine ⟨signalStep_fst _ _ _, ?_, ?_⟩
  · intro hn
    show (signalStep (runEvents es) c d).2 = []
    unfold signalStep
    simp [hn]
  · intro p hp
    obtain ⟨r, hr, _⟩ := (inv_runEvents es).2 c p hp
    have hout : (signalStep (runEvents es) c d).2 =
        (r.filter fun x => x ≠ c).map (fun x => (x, OutMsg.signal d)) := by
      unfold signalStep
      simp [hp, hr]
    refine ⟨r, hr, hout, ?_, ?_⟩
    · intro x hx hxc
      show _ ∈ (signalStep (runEvents es) c d).2
      rw [hout]
      exact List.mem_map.mpr ⟨x, List.mem_filter.mpr ⟨hx, by simpa using hxc⟩, rfl⟩
    · intro y m hym
      have hym2 := hym
      rw [show (step (runEvents es) (CEvent.msg c (InMsg.signal d))).2 =
        (signalStep (runEvents es) c d).2 from rfl, hout] at hym2
      obtain ⟨x, hxf, hxe⟩ := List.mem_map.mp hym2
      obtain ⟨hxr, hxc⟩ := List.mem_filter.mp hxf
      obtain ⟨rfl, rfl⟩ : x = y ∧ OutMsg.signal d = m := by
        constructor <;> [exact congrArg Prod.fst hxe; exact congrArg Prod.snd hxe]
      exact ⟨by simpa using hxc, rfl⟩

/-- Witness for C8 at a concrete trace: socket 0 relays a payload in a full
room; it is delivered to socket 1 only. -/
theorem c8_relay_witness :
    ∃ r, (runEvents [CEvent.msg 0 (InMsg.join "123456"),
        CEvent.msg 1 (InMsg.join "123456")]).pinRooms "123456" = some r ∧
      (step (runEvents [CEvent.msg 0 (InMsg.join "123456"),
          CEvent.msg 1 (InMsg.join "123456")]) (CEvent.msg 0 (InMsg.signal "offer"))).2 =
        (r.filter fun x => x ≠ 0).map (fun x => (x, OutMsg.signal "offer")) ∧
      (∀ x ∈ r, x ≠ 0 →
        (x, OutMsg.signal "offer") ∈
          (step (runEvents [CEvent.msg 0 (InMsg.join "123456"),
            CEvent.msg 1 (InMsg.join "123456")]) (CEvent.msg 0 (InMsg.signal "offer"))).2) ∧
      (∀ y m, (y, m) ∈ (step (runEvents [CEvent.msg 0 (InMsg.join "123456"),
          CEvent.msg 1 (InMsg.join "123456")]) (CEvent.msg 0 (InMsg.signal "offer"))).2 →
        y ≠ 0 ∧ m = OutMsg.signal "offer") :=
  (c8_relay [CEvent.msg 0 (InMsg.join "123456"), CEvent.msg 1 (InMsg.join "123456")]
    0 "offer").2.2 "123456" (by decide)

/-- Claim C9: joining an absent room and then leaving as the sole member
removes the room's entry from the store, and a subsequent join on the same
PIN behaves as a fresh first join, replying `joined` with occupant count 1. -/
theorem c9_join_leave_fresh (es : List CEvent) (c e : Nat) (p : String)
    (hp : sixDigits p = true) (h0 : (runEvents es).pinRooms p = none) :
    ((step (runEvents es) (CEvent.msg c (InMsg.join p))).1.pinRooms p = some [c]) ∧
    ((step (step (runEvents es) (CEvent.msg c (InMsg.join p))).1
        (CEvent.msg c InMsg.leave)).1.pinRooms p = none) ∧
    ((step (step (step (runEvents es) (CEvent.msg c (InMsg.join p))).1
        (CEvent.msg c InMsg.leave)).1 (CEvent.msg e (InMsg.join p))).2 =
      [(e, OutMsg.joined p 1)]) ∧
    ((step (step (step (runEvents es) (CEvent.msg c (InMsg.join p))).1
        (CEvent.msg c InMsg.leave)).1 (CEvent.msg e (InMsg.join p))).1.pinRooms p =
      some [e]) := by
  have h1 : step (runEvents es) (CEvent.msg c (InMsg.join p)) =
      (⟨updRoom (runEvents es).pinRooms p (some [c]),
        updPin (runEvents es).socketToPin c (some p)⟩, [(c, OutMsg.joined p 1)]) :=
    joinStep_fresh (runEvents es) c p hp h0
  have h2 : step (step (runEvents es) (CEvent.msg c (InMsg.join p))).1
      (CEvent.msg c InMsg.leave) =
      (⟨updRoom (updRoom (runEvents es).pinRooms p (some [c])) p none,
        updPin (updPin (runEvents es).socketToPin c (some p)) c none⟩, []) := by
    rw [h1]
    exact removeConn_sole _ c p (by dsimp only; rw [updPin_same])
      (by dsimp only; rw [updRoom_same])
  have h2none : (step (step (runEvents es) (CEvent.msg c (InMsg.join p))).1
      (CEvent.msg c InMsg.leave)).1.pinRooms p = none := by
    rw [h2]
    dsimp only
    rw [updRoom_same]
  have h3 : step (step (step (runEvents es) (CEvent.msg c (InMsg.join p))).1
      (CEvent.msg c InMsg.leave)).1 (CEvent.msg e (InMsg.join p)) =
      (⟨updRoom (step (step (runEvents es) (CEvent.msg c (InMsg.join p))).1
          (CEvent.msg c InMsg.leave)).1.pinRooms p (some [e]),
        updPin (step (step (runEvents es) (CEvent.msg c (InMsg.join p))).1
          (CEvent.msg c InMsg.leave)).1.socketToPin e (some p)⟩,
        [(e, OutMsg.joined p 1)]) :=
    joinStep_fresh _ e p hp h2none
  refine ⟨?_, h2none, ?_, ?_⟩
  · rw [h1]
    dsimp only
    rw [updRoom_same]
  · rw [h3]
  · rw [h3]
    dsimp only
    rw [updRoom_same]

/-- Witness for C9 at a concrete trace starting from the empty store. -/
theorem c9_join_leave_fresh_witness :
    ((step (runEvents []) (CEvent.msg 0 (InMsg.join "482913"))).1.pinRooms "482913" =
      some [0]) ∧
    ((step (step (runEvents []) (CEvent.msg 0 (InMsg.join "482913"))).1
        (CEvent.msg 0 InMsg.leave)).1.pinRooms "482913" = none) ∧
    ((step (step (step (runEvents []) (CEvent.msg 0 (InMsg.join "482913"))).1
        (CEvent.msg 0 InMsg.leave)).1 (CEvent.msg 1 (InMsg.join "482913"))).2 =
      [(1, OutMsg.joined "482913" 1)]) ∧
    ((step (step (step (runEvents []) (CEvent.msg 0 (InMsg.join "482913"))).1
        (CEvent.msg 0 InMsg.leave)).1 (CEvent.msg 1 (InMsg.join "482913"))).1.pinRooms
      "482913" = some [1]) :=
  c9_join_leave_fresh [] 0 1 "482913" (by decide) (by decide)

/-!
Session-crypto layer, embedded from `src/unnamed/part_003` (`sessionCrypto`).
`crypto.subtle`'s ECDH, AES-GCM, SHA-256 and the TextEncoder/TextDecoder are
host-platform primitives; they enter the embedding as parameters (ECDH as
exponentiation in a monoid, the curve group's defining structure).  The
base64 conversion (`arrayBufferToBase64` / `base64ToArrayBuffer` composed
with `btoa` / `atob`), the hex rendering and the fingerprint formatting are
source code and are embedded concretely.
-/

/-- The base64 alphabet used by `btoa` / `atob`. -/
def b64Alphabet : List Char :=
  "ABCDEFGHIJKLMNOPQRSTUVWXYZabcdefghijklmnopqrstuvwxyz0123456789+/".data

/-- The base64 character for a sextet value. -/
def b64Char (n : Nat) : Char := b64Alphabet.getD n 'A'

/-- The sextet value of a base64 character. -/
def b64Value (c : Char) : Nat := b64Alphabet.indexOf c

/-- `btoa` on a byte list (the composition of the source's
`arrayBufferToBase64` byte-to-binary-string loop with the platform `btoa`). -/
def b64e : List Nat → List Char
  | [] => []
  | [a] => [b64Char (a / 4), b64Char (a % 4 * 16), '=', '=']
  | [a, b] => [b64Char (a / 4), b64Char (a % 4 * 16 + b / 16),
      b64Char (b % 16 * 4), '=']
  | a :: b :: d :: rest =>
      b64Char (a / 4) :: b64Char (a % 4 * 16 + b / 16) ::
        b64Char (b % 16 * 4 + d / 64) :: b64Char (d % 64) :: b64e rest

/-- `atob` back to a byte list (the composition of the platform `atob` with
the source's `base64ToArrayBuffer` charCode loop). -/
def b64d : List Char → List Nat
  | c1 :: c2 :: c3 :: c4 :: rest =>
      if c3 = '=' then
        [b64Value c1 * 4 + b64Value c2 / 16]
      else if c4 = '=' then
        [b64Value c1 * 4 + b64Value c2 / 16,
          b64Value c2 % 16 * 16 + b64Value c3 / 4]
      else
        (b64Value c1 * 4 + b64Value c2 / 16) ::
          (b64Value c2 % 16 * 16 + b64Value c3 / 4) ::
          (b64Value c3 % 4 * 64 + b64Value c4) :: b64d rest
  | _ => []

theorem b64Value_b64Char : ∀ n, n < 64 → b64Value (b64Char n) = n := by decide

theorem b64Char_ne_pad : ∀ n, n < 64 → b64Char n ≠ '=' := by decide

/-- Base64 decoding inverts encoding on byte lists. -/
theorem b64_roundtrip : ∀ l : List Nat, (∀ x ∈ l, x < 256) → b64d (b64e l) = l
  | [], _ => rfl
  | [a], h => by
    have ha : a < 256 := h a (by simp)
    have h1 : a / 4 < 64 := by omega
    have h2 : a % 4 * 16 < 64 := by omega
    show b64d [b64Char (a / 4), b64Char (a % 4 * 16), '=', '='] = [a]
    unfold b64d
    rw [if_pos rfl, b64Value_b64Char _ h1, b64Value_b64Char _ h2]
    have e1 : a / 4 * 4 + a % 4 * 16 / 16 = a := by omega
    rw [e1]
  | [a, b], h => by
    have ha : a < 256 := h a (by simp)
    have hb : b < 256 := h b (by simp)
    have h1 : a / 4 < 64 := by omega
    have h2 : a % 4 * 16 + b / 16 < 64 := by omega
    have h3 : b % 16 * 4 < 64 := by omega
    show b64d [b64Char (a / 4), b64Char (a % 4 * 16 + b / 16),
      b64Char (b % 16 * 4), '='] = [a, b]
    unfold b64d
    rw [if_neg (b64Char_ne_pad _ h3), if_pos rfl,
      b64Value_b64Char _ h1, b64Value_b64Char _ h2, b64Value_b64Char _ h3]
    have e1 : a / 4 * 4 + (a % 4 * 16 + b / 16) / 16 = a := by omega
    have e2 : (a % 4 * 16 + b / 16) % 16 * 16 + b % 16 * 4 / 4 = b := by omega
    rw [e1, e2]
  | a :: b :: d :: e :: rest, h => by
    have ha : a < 256 := h a (by simp)
    have hb : b < 256 := h b (by simp)
    have hd : d < 256 := h d (by simp)
    have h1 : a / 4 < 64 := by omega
    have h2 : a % 4 * 16 + b / 16 < 64 := by omega
    have h3 : b % 16 * 4 + d / 64 < 64 := by omega
    have h4 : d % 64 < 64 := by omega
    show b64d (b64Char (a / 4) :: b64Char (a % 4 * 16 + b / 16) ::
        b64Char (b % 16 * 4 + d / 64) :: b64Char (d % 64) :: b64e (e :: rest)) =
      a :: b :: d :: e :: rest
    unfold b64d
    rw [if_neg (b64Char_ne_pad _ h3), if_neg (b64Char_ne_pad _ h4),
      b64Value_b64Char _ h1, b64Value_b64Char _ h2,
      b64Value_b64Char _ h3, b64Value_b64Char _ h4,
      b64_roundtrip (e :: rest) (fun x hx => h x (by simp at hx ⊢; tauto))]
    have e1 : a / 4 * 4 + (a % 4 * 16 + b / 16) / 16 = a := by omega
    have e2 : (a % 4 * 16 + b / 16) % 16 * 16 + (b % 16 * 4 + d / 64) / 4 = b := by
      omega
    have e3 : (b % 16 * 4 + d / 64) % 4 * 64 + d % 64 = d := by omega
    rw [e1, e2, e3]
  | [a, b, d], h => by
    have ha : a < 256 := h a (by simp)
    have hb : b < 256 := h b (by simp)
    have hd : d < 256 := h d (by simp)
    have h1 : a / 4 < 64 := by omega
    have h2 : a % 4 * 16 + b / 16 < 64 := by omega
    have h3 : b % 16 * 4 + d / 64 < 64 := by omega
    have h4 : d % 64 < 64 := by omega
    show b64d (b64Char (a / 4) :: b64Char (a % 4 * 16 + b / 16) ::
        b64Char (b % 16 * 4 + d / 64) :: b64Char (d % 64) :: b64e []) =
      [a, b, d]
    unfold b64d
    rw [if_neg (b64Char_ne_pad _ h3), if_neg (b64Char_ne_pad _ h4),
      b64Value_b64Char _ h1, b64Value_b64Char _ h2,
      b64Value_b64Char _ h3, b64Value_b64Char _ h4]
    have e1 : a / 4 * 4 + (a % 4 * 16 + b / 16) / 16 = a := by omega
    have e2 : (a % 4 * 16 + b / 16) % 16 * 16 + (b % 16 * 4 + d / 64) / 4 = b := by
      omega
    have e3 : (b % 16 * 4 + d / 64) % 4 * 64 + d % 64 = d := by omega
    rw [e1, e2, e3]
    rfl

/-- The hex digit characters produced by JS `Number.prototype.toString(16)`. -/
def hexDigitChar (n : Nat) : Char := "0123456789abcdef".data.getD n '0'

/-- `bufferToHex`'s per-byte step: `bytes[i].toString(16).padStart(2, "0")`. -/
def hexByteChars (n : Nat) : List Char := [hexDigitChar (n / 16 % 16), hexDigitChar (n % 16)]

/-- Embedding of `bufferToHex` from `part_003` lines 106-113. -/
def bufferToHex (bytes : List Nat) : List Char := (bytes.map hexByteChars).flatten

/-- `hex.match(/.{1,4}/g)`: split into groups of four characters. -/
def chunk4 : List Char → List (List Char)
  | [] => []
  | a :: b :: c :: d :: rest => [a, b, c, d] :: chunk4 rest
  | l => [l]

/-- The ECDH public key of a secret scalar: the curve group is abstracted as
a monoid with generator `g`, `crypto.subtle.generateKey`'s scalar
multiplication being the power map. -/
def dhPublicKey {M : Type} [Monoid M] (g : M) (priv : Nat) : M := g ^ priv

/-- `crypto.subtle.deriveBits({name: "ECDH", public: pub}, priv, 256)`: the
shared group element computed from the local secret scalar and the remote
public element. -/
def dhDeriveBits {M : Type} [Monoid M] (priv : Nat) (pub : M) : M := pub ^ priv

/-- Embedding of `computeFingerprint` from `part_003` lines 77-89: derive
the ECDH shared bits, hash them (`digest` abstracts SHA-256, `serialize`
abstracts the platform's bit serialization of the shared element), render
as hex, keep the first 16 hex digits, and join groups of 4 with `-`. -/
def computeFingerprint {M : Type} [Monoid M] (digest : List Nat → List Nat)
    (serialize : M → List Nat) (priv : Nat) (pub : M) : String :=
  String.mk (List.intercalate ['-']
    (chunk4 ((bufferToHex (digest (serialize (dhDeriveBits priv pub)))).take 16)))

/-- Claim C2: for matching ephemeral ECDH keypairs from the two sides of one
exchange, `computeFingerprint(aPriv, bPub)` and `computeFingerprint(bPriv,
aPub)` return the same string, whatever the platform hash and serialization
do, because both sides derive the same shared element. -/
theorem c2_fingerprint_symmetry {M : Type} [Monoid M]
    (digest : List Nat → List Nat) (serialize : M → List Nat) (g : M)
    (aPriv bPriv : Nat) (aPub bPub : M)
    (ha : aPub = dhPublicKey g aPriv) (hb : bPub = dhPublicKey g bPriv) :
    computeFingerprint digest serialize aPriv bPub =
      computeFingerprint digest serialize bPriv aPub := by
  subst ha
  subst hb
  unfold computeFingerprint dhDeriveBits dhPublicKey
  rw [← pow_mul, ← pow_mul, Nat.mul_comm]

/-- Witness for C2 on a concrete multiplicative group and keypair. -/
theorem c2_fingerprint_symmetry_witness :
    computeFingerprint (M := Nat) id (fun n => [n]) 3 (dhPublicKey 2 4) =
      computeFingerprint (M := Nat) id (fun n => [n]) 4 (dhPublicKey 2 3) :=
  c2_fingerprint_symmetry id (fun n => [n]) 2 3 4 (dhPublicKey 2 3)
    (dhPublicKey 2 4) rfl rfl

/-- The result of `encryptWithSession`: base64 strings for IV and
ciphertext. -/
structure EncResult where
  iv : String
  ciphertext : String

/-- Embedding of `encryptWithSession` from `part_003` lines 46-60.
`aesGcmEncrypt` abstracts `crypto.subtle.encrypt` with AES-GCM, `textEncode`
abstracts `TextEncoder.encode`; the random 12-byte IV is an external input. -/
def encryptWithSession {K : Type} (aesGcmEncrypt : K → List Nat → List Nat → List Nat)
    (textEncode : String → List Nat) (key : K) (iv : List Nat)
    (plaintext : String) : EncResult :=
  { iv := String.mk (b64e iv),
    ciphertext := String.mk (b64e (aesGcmEncrypt key iv (textEncode plaintext))) }

/-- Embedding of `decryptWithSession` from `part_003` lines 62-75.
`aesGcmDecrypt` abstracts `crypto.subtle.decrypt` (`none` on tag mismatch,
surfaced as a thrown error in the source), `textDecode` abstracts
`TextDecoder.decode`. -/
def decryptWithSession {K : Type} (aesGcmDecrypt : K → List Nat → List Nat → Option (List Nat))
    (textDecode : List Nat → String) (key : K) (ivB64 : String)
    (ctB64 : String) : Option String :=
  (aesGcmDecrypt key (b64d ivB64.data) (b64d ctB64.data)).map textDecode

/-- Claim C3: decrypting the `(iv, ciphertext)` pair produced by
`encryptWithSession` yields the plaintext again, for every session key and
every plaintext, given the platform AEAD and text-codec contracts at that
input (ciphertext and IV are byte lists, AES-GCM decryption inverts
encryption, UTF-8 decoding inverts encoding). -/
theorem c3_encrypt_decrypt_roundtrip {K : Type}
    (aesGcmEncrypt : K → List Nat → List Nat → List Nat)
    (aesGcmDecrypt : K → List Nat → List Nat → Option (List Nat))
    (textEncode : String → List Nat) (textDecode : List Nat → String)
    (key : K) (iv : List Nat) (m : String)
    (hiv : ∀ x ∈ iv, x < 256)
    (hct : ∀ x ∈ aesGcmEncrypt key iv (textEncode m), x < 256)
    (hdec : aesGcmDecrypt key iv (aesGcmEncrypt key iv (textEncode m)) =
      some (textEncode m))
    (henc : textDecode (textEncode m) = m) :
    decryptWithSession aesGcmDecrypt textDecode key
      (encryptWithSession aesGcmEncrypt textEncode key iv m).iv
      (encryptWithSession aesGcmEncrypt textEncode key iv m).ciphertext =
      some m := by
  unfold encryptWithSession decryptWithSession
  dsimp only
  rw [b64_roundtrip iv hiv, b64_roundtrip _ hct, hdec]
  simp [henc]

/-- Witness for C3 at a concrete key, IV and plaintext containing an
embedded null character and a non-ASCII character. -/
theorem c3_encrypt_decrypt_roundtrip_witness :
    decryptWithSession (fun (_ : Nat) _ ct => some ct)
      (fun l => String.mk (l.map Char.ofNat)) 7
      (encryptWithSession (fun _ _ pt => pt) (fun s => s.data.map Char.toNat) 7
        [0, 1, 2, 3, 4, 5, 6, 7, 8, 9, 10, 11] "h\x00é").iv
      (encryptWithSession (fun _ _ pt => pt) (fun s => s.data.map Char.toNat) 7
        [0, 1, 2, 3, 4, 5, 6, 7, 8, 9, 10, 11] "h\x00é").ciphertext =
      some "h\x00é" :=
  c3_encrypt_decrypt_roundtrip (fun _ _ pt => pt) (fun _ _ ct => some ct)
    (fun s => s.data.map Char.toNat) (fun l => String.mk (l.map Char.ofNat)) 7
    [0, 1, 2, 3, 4, 5, 6, 7, 8, 9, 10, 11] "h\x00é"
    (by decide) (by decide) rfl (by decide)

/-!
Client-side `P2PService`, embedded from `src/client/src/lib/p2p.ts`.
Only the fields the negotiation lifecycle reads and writes are modelled;
`RTCPeerConnection` and `RTCDataChannel` handles become their observable
state, key handles become opaque `Option Nat` slots, and a pending
`setTimeout` handle becomes `reconnectTimer : Option Nat` carrying the
scheduled delay.
-/

/-- `RTCDataChannel.readyState`. -/
inductive ChannelReadyState where
  | connecting
  | opened
  | closing
  | closed
deriving DecidableEq, Repr

/-- The `P2PService` instance state (fields from `p2p.ts` lines 26-38). -/
structure P2PState where
  dataChannel : Option ChannelReadyState
  peerConn : Bool
  ephPriv : Option Nat
  ephPubJwk : Option Nat
  remotePub : Option Nat
  sessionKey : Option Nat
  currentPin : Option String
  reconnectAttempts : Nat
  reconnectTimer : Option Nat
deriving DecidableEq, Repr

/-- `maxReconnectAttempts` (`p2p.ts` line 37). -/
def maxReconnectAttempts : Nat := 5

/-- The base reconnection delay in milliseconds (`p2p.ts` line 276). -/
def reconnectBaseDelay : Nat := 500

/-- The reconnection delay cap in milliseconds (`p2p.ts` line 276). -/
def reconnectMaxDelay : Nat := 30000

/-- The observable outcome of one `attemptReconnect()` call. -/
inductive ReconnectAction where
  | noop
  | errorEmitted
  | timerSet (delay : Nat)
deriving DecidableEq, Repr

/-- Embedding of `P2PService.attemptReconnect` (`p2p.ts` lines 270-285):
no-op without a current PIN; a terminal error event once the attempt budget
is exhausted; otherwise schedule a timer with the capped exponential delay
and increment the attempt counter. -/
def attemptReconnect (s : P2PState) : P2PState × ReconnectAction :=
  match s.currentPin with
  | none => (s, ReconnectAction.noop)
  | some _ =>
    if maxReconnectAttempts ≤ s.reconnectAttempts then
      (s, ReconnectAction.errorEmitted)
    else
      let delay := min reconnectMaxDelay (reconnectBaseDelay * 2 ^ s.reconnectAttempts)
      ({ s with
          reconnectAttempts := s.reconnectAttempts + 1,
          reconnectTimer := some delay }, ReconnectAction.timerSet delay)

/-- The state after `n` consecutive `attemptReconnect()` calls. -/
def afterNAttempts (s : P2PState) : Nat → P2PState
  | 0 => s
  | n + 1 => (attemptReconnect (afterNAttempts s n)).1

/-- Embedding of `P2PService.cleanup` (`p2p.ts` lines 247-264): closes and
drops the data channel and peer connection and discards all key material.
It does not touch `currentPin`, `reconnectAttempts` or `reconnectTimer`. -/
def cleanup (s : P2PState) : P2PState :=
  { s with
      dataChannel := none,
      peerConn := false,
      ephPriv := none,
      ephPubJwk := none,
      remotePub := none,
      sessionKey := none }

/-- Embedding of `P2PService.leave` (`p2p.ts` lines 70-74): detaches the
signaling listener, sends `leave` on the signaling channel (transport
effects outside this state), then runs `cleanup()`. -/
def leave (s : P2PState) : P2PState :=
  cleanup s

/-- The `setTimeout` callback scheduled by `attemptReconnect` (`p2p.ts`
lines 279-284): when the timer is pending and fires, it emits `connecting`,
runs `cleanup()` and rejoins signaling under `currentPin!`; the returned
option is the PIN passed to `signalingService.join`. -/
def fireReconnectTimer (s : P2PState) : P2PState × Option String :=
  match s.reconnectTimer with
  | none => (s, none)
  | some _ => (cleanup { s with reconnectTimer := none }, s.currentPin)

/-- The observable outcome of one `send(text)` call. -/
inductive SendAction where
  | transmitPlain (text : String)
  | transmitEnc (text : String)
deriving DecidableEq, Repr

/-- Embedding of `P2PService.send` (`p2p.ts` lines 76-86): silently return
when the data channel is missing or not open; otherwise transmit the text
as plaintext before the session key exists, encrypted afterwards.  `send`
assigns no field of the service. -/
def send (s : P2PState) (text : String) : P2PState × List SendAction :=
  match s.dataChannel with
  | none => (s, [])
  | some rs =>
    if rs ≠ ChannelReadyState.opened then (s, [])
    else
      match s.sessionKey with
      | none => (s, [SendAction.transmitPlain text])
      | some _ => (s, [SendAction.transmitEnc text])

theorem afterNAttempts_invariant (s : P2PState) (p : String)
    (hpin : s.currentPin = some p) (h0 : s.reconnectAttempts = 0) :
    ∀ k, k ≤ maxReconnectAttempts →
      (afterNAttempts s k).reconnectAttempts = k ∧
      (afterNAttempts s k).currentPin = some p := by
  intro k
  induction k with
  | zero => intro _; exact ⟨h0, hpin⟩
  | succ n ih =>
    intro hn
    obtain ⟨ha, hp⟩ := ih (by omega)
    show (attemptReconnect (afterNAttempts s n)).1.reconnectAttempts = n + 1 ∧
      (attemptReconnect (afterNAttempts s n)).1.currentPin = some p
    unfold attemptReconnect
    simp only [hp]
    have hlt : ¬ maxReconnectAttempts ≤ (afterNAttempts s n).reconnectAttempts := by
      rw [ha]
      unfold maxReconnectAttempts at hn ⊢
      omega
    rw [if_neg hlt]
    constructor
    · show (afterNAttempts s n).reconnectAttempts + 1 = n + 1
      omega
    · rfl

/-- Claim C4: starting from a fresh attempt counter, the Nth scheduled
reconnection delay (1 ≤ N ≤ `maxReconnectAttempts`) equals
`min(maxDelay, base * 2^(N-1))` with base 500 ms and cap 30000 ms, and once
`maxReconnectAttempts` attempts have been consumed, `attemptReconnect`
emits a terminal error and changes nothing (no further timer). -/
theorem c4_reconnect_backoff (s : P2PState) (p : String) (N : Nat)
    (hpin : s.currentPin = some p) (h0 : s.reconnectAttempts = 0) :
    (1 ≤ N → N ≤ maxReconnectAttempts →
      (attemptReconnect (afterNAttempts s (N - 1))).2 =
        ReconnectAction.timerSet
          (min reconnectMaxDelay (reconnectBaseDelay * 2 ^ (N - 1)))) ∧
    ((attemptReconnect (afterNAttempts s maxReconnectAttempts)).2 =
        ReconnectAction.errorEmitted ∧
      (attemptReconnect (afterNAttempts s maxReconnectAttempts)).1 =
        afterNAttempts s maxReconnectAttempts) := by
  constructor
  · intro h1 h2
    obtain ⟨ha, hp⟩ := afterNAttempts_invariant s p hpin h0 (N - 1) (by omega)
    unfold attemptReconnect
    simp only [hp]
    have hlt : ¬ maxReconnectAttempts ≤ (afterNAttempts s (N - 1)).reconnectAttempts := by
      rw [ha]
      unfold maxReconnectAttempts at h2 ⊢
      omega
    rw [if_neg hlt, ha]
  · obtain ⟨ha, hp⟩ :=
      afterNAttempts_invariant s p hpin h0 maxReconnectAttempts (Nat.le_refl _)
    unfold attemptReconnect
    simp only [hp]
    rw [if_pos (by omega)]
    exact ⟨rfl, rfl⟩

/-- Witness for C4: first attempt schedules the base delay; the call after
the budget is consumed emits the terminal error. -/
theorem c4_reconnect_backoff_witness :
    (attemptReconnect (afterNAttempts
        ⟨none, false, none, none, none, none, some "482913", 0, none⟩ 0)).2 =
      ReconnectAction.timerSet
        (min reconnectMaxDelay (reconnectBaseDelay * 2 ^ 0)) ∧
    (attemptReconnect (afterNAttempts
        ⟨none, false, none, none, none, none, some "482913", 0, none⟩
        maxReconnectAttempts)).2 = ReconnectAction.errorEmitted :=
  ⟨(c4_reconnect_backoff
      ⟨none, false, none, none, none, none, some "482913", 0, none⟩
      "482913" 1 rfl rfl).1 (by decide) (by decide),
    (c4_reconnect_backoff
      ⟨none, false, none, none, none, none, some "482913", 0, none⟩
      "482913" 1 rfl rfl).2.1⟩

/-- Claim C6 (code bug, evaluated at the failing state): `leave()` runs
`cleanup()`, which discards the negotiation state but never clears
`reconnectTimer` (nor `currentPin`), so a reconnection timer pending at the
moment of a clean leave stays armed, and when it fires it rejoins the
just-left PIN. -/
theorem c6_leave_keeps_timer :
    (leave ⟨some ChannelReadyState.opened, true, some 1, some 2, some 3,
        some 4, some "482913", 2, some 2000⟩).reconnectTimer = some 2000 ∧
    (fireReconnectTimer (leave ⟨some ChannelReadyState.opened, true, some 1,
        some 2, some 3, some 4, some "482913", 2, some 2000⟩)).2 =
      some "482913" ∧
    (leave ⟨some ChannelReadyState.opened, true, some 1, some 2, some 3,
        some 4, some "482913", 2, some 2000⟩).sessionKey = none :=
  ⟨rfl, rfl, rfl⟩

/-- Claim C10: when the data channel is absent or its ready state is not
`open`, `send` returns with no transmission, no queued message, no emitted
event and no state change. -/
theorem c10_send_silent_drop (s : P2PState) (text : String)
    (h : s.dataChannel ≠ some ChannelReadyState.opened) :
    send s text = (s, []) := by
  rcases hdc : s.dataChannel with _ | rs
  · simp [send, hdc]
  · have hrs : rs ≠ ChannelReadyState.opened := by
      intro he
      exact h (by rw [hdc, he])
    simp [send, hdc, hrs]

/-- Witness for C10: sending with no data channel is a silent no-op. -/
theorem c10_send_silent_drop_witness :
    send ⟨none, false, none, none, none, none, some "482913", 0, none⟩ "hello" =
      (⟨none, false, none, none, none, none, some "482913", 0, none⟩, []) :=
  c10_send_silent_drop _ "hello" (by decide)

end PruKt
